import Mathlib

/-!
Verification of the sunset_monitoring repository's withdrawal-scanning core.

The definitions below are a shallow embedding of `src/blockchain_monitor.py`
and `src/withdrawal_monitor.py`.  Bytes are modelled as `Nat` values below 256,
byte strings as `List Nat`, block heights as `Nat`, wall-clock instants as
`Int` seconds, and the ledger RPC endpoint as a record of `Except`-valued
functions (an exception in the Python code is an `Except.error`).
-/

namespace Sunset

/-! ## Keccak-256

`BlockchainMonitor._is_withdraw_function` computes the function selector with
`w3.keccak(text=...)`, i.e. the original Keccak-256 (0x01 domain padding, not
the SHA3-2015 0x06 padding).  The sponge state is 25 lanes of 64 bits, flat
index `i = x + 5*y`. -/

def rotl64 (x n : Nat) : Nat :=
  let m := n % 64
  ((x <<< m) ||| (x >>> (64 - m))) % (2 ^ 64)

def keccakRotOff : List Nat :=
  [0, 36, 3, 41, 18,
   1, 44, 10, 45, 2,
   62, 6, 43, 15, 61,
   28, 55, 25, 21, 56,
   27, 20, 39, 8, 14]

def keccakRC : List Nat :=
  [1, 32898, 9223372036854808714,
   9223372039002292224, 32907, 2147483649,
   9223372039002292353, 9223372036854808585, 138,
   136, 2147516425, 2147483658,
   2147516555, 9223372036854775947, 9223372036854808713,
   9223372036854808579, 9223372036854808578, 9223372036854775936,
   32778, 9223372039002259466, 9223372039002292353,
   9223372036854808704, 2147483649, 9223372039002292232]

def keccakTheta (A : List Nat) : List Nat :=
  let C := (List.range 5).map (fun x =>
    (A.getD x 0) ^^^ (A.getD (x + 5) 0) ^^^ (A.getD (x + 10) 0) ^^^
      (A.getD (x + 15) 0) ^^^ (A.getD (x + 20) 0))
  let D := (List.range 5).map (fun x =>
    (C.getD ((x + 4) % 5) 0) ^^^ rotl64 (C.getD ((x + 1) % 5) 0) 1)
  (List.range 25).map (fun i => (A.getD i 0) ^^^ (D.getD (i % 5) 0))

def keccakRhoPi (A : List Nat) : List Nat :=
  (List.range 25).foldl (fun B i =>
    let x := i % 5
    let y := i / 5
    B.set (y + 5 * ((2 * x + 3 * y) % 5))
      (rotl64 (A.getD i 0) (keccakRotOff.getD (5 * x + y) 0)))
    (List.replicate 25 0)

def keccakChi (B : List Nat) : List Nat :=
  (List.range 25).map (fun i =>
    let x := i % 5
    let y := i / 5
    (B.getD i 0) ^^^
      (((2 ^ 64 - 1) ^^^ (B.getD ((x + 1) % 5 + 5 * y) 0)) &&&
        (B.getD ((x + 2) % 5 + 5 * y) 0)))

def keccakRound (A : List Nat) (rnd : Nat) : List Nat :=
  let A := keccakChi (keccakRhoPi (keccakTheta A))
  A.set 0 ((A.getD 0 0) ^^^ (keccakRC.getD rnd 0))

def keccakF (A : List Nat) : List Nat :=
  (List.range 24).foldl keccakRound A

def bytesToLane (bs : List Nat) : Nat :=
  bs.foldr (fun b acc => b + 256 * acc) 0

def laneToBytes (lane : Nat) : List Nat :=
  (List.range 8).map (fun k => (lane >>> (8 * k)) % 256)

def keccakAbsorbBlock (A blk : List Nat) : List Nat :=
  keccakF ((List.range 25).map (fun i =>
    if i < 17 then (A.getD i 0) ^^^ bytesToLane ((blk.drop (8 * i)).take 8)
    else A.getD i 0))

def keccakPad (msg : List Nat) : List Nat :=
  let t := msg ++ [1]
  let p := t ++ List.replicate ((136 - t.length % 136) % 136) 0
  p.set (p.length - 1) ((p.getD (p.length - 1) 0) ||| 128)

def keccak256 (msg : List Nat) : List Nat :=
  let p := keccakPad msg
  let A := (List.range (p.length / 136)).foldl
    (fun A b => keccakAbsorbBlock A ((p.drop (136 * b)).take 136))
    (List.replicate 25 0)
  ((List.range 4).map (fun i => laneToBytes (A.getD i 0))).flatten

end Sunset

namespace Sunset

/-! ## BlockchainMonitor (src/blockchain_monitor.py) -/

/-- Canonical signature hashed by `_is_withdraw_function` (ASCII, so UTF-8
bytes coincide with code points). -/
def withdrawSignature : String :=
  "withdraw(uint256,address,uint256,uint8,bytes32,bytes32)"

/-- Embeds `withdraw_selector = w3.keccak(text="withdraw(...)")[:4]`
(line 217 of blockchain_monitor.py). -/
def withdraw_selector : List Nat :=
  (keccak256 (withdrawSignature.data.map Char.toNat)).take 4

/-- Embeds `BlockchainMonitor._is_withdraw_function` (lines 207-219): inputs
shorter than 4 bytes never match; otherwise the leading 4 bytes are compared
with the selector. -/
def is_withdraw_function (input_data : List Nat) : Bool :=
  if input_data.length < 4 then false
  else input_data.take 4 == withdraw_selector

/-- Python's `range(start, stop, step)` for a positive step: the element count
is fixed up front as `max 0 (ceil ((stop - start) / step))`, which truncated
`Nat` subtraction expresses directly. -/
def pyRange (start stop step : Nat) : List Nat :=
  (List.range ((stop - start + step - 1) / step)).map (fun i => start + step * i)

/-- `max_blocks_per_request = 500` (line 149 of blockchain_monitor.py). -/
def max_blocks_per_request : Nat := 500

/-- The sub-ranges queried by the chunk loop (lines 152-163):
`for chunk_start in range(start_block, current_block + 1, 500)` with
`chunk_end = min(chunk_start + 499, current_block)`. -/
def chunkRanges (start_block current_block : Nat) : List (Nat × Nat) :=
  (pyRange start_block (current_block + 1) max_blocks_per_request).map
    (fun chunk_start =>
      (chunk_start, min (chunk_start + max_blocks_per_request - 1) current_block))

/-- Result of `w3.eth.get_transaction` as used by the scanner: call input
bytes, containing block and that block's timestamp (the separate
`w3.eth.get_block(tx.blockNumber).timestamp` lookup of line 178 is folded into
the same per-transaction resolution step, whose failure is caught by the same
`except` at line 192). -/
structure TxData where
  input : List Nat
  blockNumber : Nat
  timestamp : Int
deriving DecidableEq

/-- A candidate transaction dict produced by `get_recent_transactions`
(lines 180-190), restricted to the fields downstream code reads. -/
structure TxCand where
  hash : String
  block_number : Nat
  input : List Nat
  timestamp : Int
deriving DecidableEq

/-- The ledger RPC surface consumed by one chain's scan pass; a raised
exception in the Python client is modelled as `Except.error` with the message. -/
structure ChainRpc where
  block_number : Except String Nat
  get_logs : Nat → Nat → Except String (List String)
  get_transaction : String → Except String TxData

/-- The chunk loop of lines 152-163: issues one `get_logs` call per sub-range
in order, stopping at the first failure.  Returns the trace of issued queries
together with either the concatenated logs or the propagated error (there is
no per-chunk `try`, so the first exception aborts the loop and discards the
partial `all_logs`). -/
def getLogsScan (rpc : ChainRpc) : List (Nat × Nat) → List (Nat × Nat) × Except String (List String)
  | [] => ([], Except.ok [])
  | c :: rest =>
    match rpc.get_logs c.1 c.2 with
    | Except.error e => ([c], Except.error e)
    | Except.ok logs =>
      let r := getLogsScan rpc rest
      (c :: r.1, r.2.map (fun more => logs ++ more))

/-- Unique transaction hashes, keeping first occurrences: models
`list(set(log.transactionHash.hex() for log in all_logs))` (line 166) up to
Python's unspecified set iteration order — only membership is consumed
downstream. -/
def uniqueHashes (l : List String) : List String :=
  l.foldl (fun acc h => if h ∈ acc then acc else acc ++ [h]) []

/-- Start-of-scan height (lines 126-130): an explicit `start_block` argument
wins; otherwise resume one past the cursor, or fall back to
`current_block - initial_block_range` on the first pass. -/
def start_block_of (start_blockArg last_processed : Option Nat)
    (initial_block_range current_block : Nat) : Nat :=
  match start_blockArg with
  | some s => s
  | none =>
    match last_processed with
    | some b => b + 1
    | none => current_block - initial_block_range

/-- Embeds `BlockchainMonitor.get_recent_transactions` (lines 113-205) for one
chain.  Input: the RPC handle, the chain's cursor (`last_processed_blocks`
entry), `initial_block_range`, and the optional `start_block` argument.
Output: the cursor after the call and the candidate list.  Mirrors the
control flow: a failing `block_number` hits the outer `except` (cursor
untouched, empty result); otherwise the cursor is set to `current_block` at
line 139 *before* any log query; a failing sub-range query hits the inner
`except` at line 196 (empty result, cursor already advanced); a failing
per-transaction resolution is skipped by the `except` at line 192. -/
def get_recent_transactions (rpc : ChainRpc) (last_processed : Option Nat)
    (initial_block_range : Nat) (start_blockArg : Option Nat) :
    Option Nat × List TxCand :=
  match rpc.block_number with
  | Except.error _ => (last_processed, [])
  | Except.ok current_block =>
    let start_block := start_block_of start_blockArg last_processed
      initial_block_range current_block
    let cursor := some current_block
    match (getLogsScan rpc (chunkRanges start_block current_block)).2 with
    | Except.error _ => (cursor, [])
    | Except.ok all_logs =>
      let txs := (uniqueHashes all_logs).filterMap (fun tx_hash =>
        match rpc.get_transaction tx_hash with
        | Except.error _ => none
        | Except.ok tx =>
          if is_withdraw_function tx.input then
            some { hash := tx_hash, block_number := tx.blockNumber,
                   input := tx.input, timestamp := tx.timestamp }
          else none)
      (cursor, txs)

end Sunset

namespace Sunset

/-! ## Parameter decoding (blockchain_monitor.py lines 244-273) -/

/-- Value of one hex digit, or failure. -/
def hexDigitVal (c : Char) : Option Nat :=
  if '0' ≤ c ∧ c ≤ '9' then some (c.toNat - '0'.toNat)
  else if 'a' ≤ c ∧ c ≤ 'f' then some (c.toNat - 'a'.toNat + 10)
  else if 'A' ≤ c ∧ c ≤ 'F' then some (c.toNat - 'A'.toNat + 10)
  else none

/-- Pairs of hex digits to bytes; any non-digit or odd digit count fails. -/
def hexPairsToBytes : List Char → Option (List Nat)
  | [] => some []
  | [_] => none
  | c1 :: c2 :: rest =>
    match hexDigitVal c1, hexDigitVal c2, hexPairsToBytes rest with
    | some h, some l, some bs => some ((16 * h + l) :: bs)
    | _, _, _ => none

/-- Python's `bytes.fromhex`: ASCII whitespace is skipped, then the string
must be an even number of hex digits; a `ValueError` is `none`. -/
def bytes_fromhex (s : String) : Option (List Nat) :=
  hexPairsToBytes (s.data.filter (fun c => !c.isWhitespace))

/-- One 32-byte head word of ABI-encoded data. -/
def abiWord (d : List Nat) (i : Nat) : List Nat :=
  (d.drop (32 * i)).take 32

/-- Big-endian byte-list value. -/
def beNat (bs : List Nat) : Nat :=
  bs.foldl (fun acc b => 256 * acc + b) 0

/-- A decoded parameter value: `uint`s as numbers, `address`/`bytes32` as the
underlying bytes (the code's final `.hex()` display conversion for `r`/`s` is
dropped as presentation-only). -/
inductive ParamValue where
  | num (n : Nat)
  | bytes (bs : List Nat)
deriving DecidableEq

/-- Strict ABI decoding of `(uint256, address, uint256, uint8, bytes32,
bytes32)` as performed by `w3.codec.decode` (line 261): fails when fewer than
the 6 * 32 head bytes are present, or when the zero-padding of the `address`
(12 bytes) or `uint8` (31 bytes) word is non-zero
(`InsufficientDataBytes` / `NonEmptyPaddingBytes`). -/
def abiDecodeWithdraw (d : List Nat) :
    Option (Nat × List Nat × Nat × Nat × List Nat × List Nat) :=
  if d.length < 192 then none
  else if (abiWord d 1).take 12 ≠ List.replicate 12 0 then none
  else if (abiWord d 3).take 31 ≠ List.replicate 31 0 then none
  else some (beNat (abiWord d 0), (abiWord d 1).drop 12, beNat (abiWord d 2),
    beNat (abiWord d 3), abiWord d 4, abiWord d 5)

/-- Embeds `BlockchainMonitor.decode_withdraw_params` (lines 244-273): strip
an optional `0x` prefix, hex-decode, drop the 4 selector bytes, ABI-decode the
six parameters; every raised exception is caught by the single `except` and
yields the empty dict, so the result is a Python dict modelled as an
association list that is either empty or fully populated. -/
def decode_withdraw_params (input_data : String) : List (String × ParamValue) :=
  let stripped := if input_data.startsWith "0x" then input_data.drop 2 else input_data
  match bytes_fromhex stripped with
  | none => []
  | some input_bytes =>
    let params_data := input_bytes.drop 4
    match abiDecodeWithdraw params_data with
    | none => []
    | some (id, trader, amount, v, r, s) =>
      [("id", ParamValue.num id), ("trader", ParamValue.bytes trader),
       ("amount", ParamValue.num amount), ("v", ParamValue.num v),
       ("r", ParamValue.bytes r), ("s", ParamValue.bytes s)]

/-! ## WithdrawalMonitor (src/withdrawal_monitor.py)

State threaded through `monitor_withdrawals`: the `processed_transactions`
set (kept as its insertion-ordered element list; only membership and size are
consumed), the `daily_transactions` dict (chain name to its ordered event
list, modelled as a total function that is `[]` off the stored keys — Python's
"create key on first append" and "delete key when emptied" are invisible
through this view), plus the pass accumulators: the returned
`all_transactions` list and the trace of
`telegram_notifier.send_failed_withdrawal_alert` calls (by transaction hash).
The notifier itself is external; a raised notifier exception is caught at
line 173 and does not change any state, so the dispatch trace records
invocations. -/

/-- The receipt dict of `get_transaction_receipt` (lines 221-242), `none` when
the receipt is unavailable or the lookup raised. -/
structure Receipt where
  status : Nat
  block_number : Nat
  gas_used : Nat
deriving DecidableEq

/-- A resolved withdrawal event, the fields of `Transaction`
(blockchain_monitor.py lines 12-23) that the monitoring, statistics and
cleanup paths read. -/
structure WEvent where
  hash : String
  block_number : Nat
  status : Bool
  chain : String
  timestamp : Int
  gas_used : Nat
deriving DecidableEq

structure MonState where
  processed_transactions : List String
  daily_transactions : String → List WEvent
  all_transactions : List WEvent
  alerts : List String

/-- Events recorded for one chain. -/
def MonState.chainEvents (st : MonState) (chain : String) : List WEvent :=
  st.daily_transactions chain

/-- Append an event under a chain key (lines 163-165). -/
def appendDaily (d : String → List WEvent) (chain : String) (tx : WEvent) :
    String → List WEvent :=
  fun c => if c = chain then d c ++ [tx] else d c

/-- Embeds the body of the `for tx_data in recent_transactions` loop
(lines 138-176) for a single candidate: skip hashes already in
`processed_transactions`; skip candidates whose receipt is unavailable;
otherwise build the `Transaction` (`status = receipt['status'] == 1`,
`create_transaction_object` line 374), append it to the pass result, add the
hash to the processed set, record it under the chain's daily list, and invoke
the failure alert exactly when `status` is false. -/
def processTx (receiptOf : String → Option Receipt) (chain : String)
    (st : MonState) (tx_data : TxCand) : MonState :=
  if tx_data.hash ∈ st.processed_transactions then st
  else
    match receiptOf tx_data.hash with
    | none => st
    | some receipt =>
      let transaction : WEvent :=
        { hash := tx_data.hash, block_number := tx_data.block_number,
          status := receipt.status == 1, chain := chain,
          timestamp := tx_data.timestamp, gas_used := receipt.gas_used }
      { processed_transactions := st.processed_transactions ++ [tx_data.hash],
        daily_transactions := appendDaily st.daily_transactions chain transaction,
        all_transactions := st.all_transactions ++ [transaction],
        alerts := if transaction.status then st.alerts else st.alerts ++ [tx_data.hash] }

/-- One chain's portion of a pass: fold the loop body over that chain's
`recent_transactions`. -/
def monitorChain (receiptOf : String → Option Receipt) (chain : String)
    (st : MonState) (recent : List TxCand) : MonState :=
  recent.foldl (processTx receiptOf chain) st

/-- Embeds `WithdrawalMonitor.monitor_withdrawals` (lines 127-186): chains are
processed in configuration order; `recentOf` is the already-scanned candidate
list per chain (`get_recent_transactions` returns `[]` rather than raising,
so the per-chain `except` at line 178 has nothing to catch in this model) and
`receiptOf` resolves receipts per chain. -/
def monitor_withdrawals (chains : List String)
    (recentOf : String → List TxCand)
    (receiptOf : String → String → Option Receipt) (st : MonState) : MonState :=
  chains.foldl (fun st chain => monitorChain (receiptOf chain) chain st (recentOf chain)) st

end Sunset

namespace Sunset

/-! ## Statistics and data retention (withdrawal_monitor.py lines 234-300) -/

/-- The per-chain stats record built at lines 250-273; the success/failure
detail lists keep the events themselves (the code projects a few display
fields from each). -/
structure ChainStats where
  successful_withdrawals : Nat
  failed_withdrawals : Nat
  total_withdrawals : Nat
  successful_transactions : List WEvent
  failed_transactions : List WEvent
deriving DecidableEq

/-- Body of `get_daily_statistics_for_period` for one chain (lines 239-273):
filter to `start_time <= tx.timestamp <= end_time` (both inclusive), then
partition on `tx.status`. -/
def statsForChain (chain_transactions : List WEvent) (start_time end_time : Int) :
    ChainStats :=
  let period_transactions := chain_transactions.filter
    (fun tx => decide (start_time ≤ tx.timestamp) && decide (tx.timestamp ≤ end_time))
  let successful_transactions := period_transactions.filter (fun tx => tx.status)
  let failed_transactions := period_transactions.filter (fun tx => !tx.status)
  { successful_withdrawals := successful_transactions.length,
    failed_withdrawals := failed_transactions.length,
    total_withdrawals := period_transactions.length,
    successful_transactions := successful_transactions,
    failed_transactions := failed_transactions }

/-- Embeds `WithdrawalMonitor.get_daily_statistics_for_period` (lines 234-275):
one stats record per configured chain. -/
def get_daily_statistics_for_period (chains : List String)
    (daily_transactions : String → List WEvent) (start_time end_time : Int) :
    List (String × ChainStats) :=
  chains.map (fun chain => (chain, statsForChain (daily_transactions chain) start_time end_time))

/-- Seconds in `timedelta(days=n)`. -/
def daysToSeconds (days : Nat) : Int := (days : Int) * 86400

/-- The event-retention part of `WithdrawalMonitor.cleanup_old_data`
(lines 279-290): `cutoff_time = now - timedelta(days=days_to_keep)` and each
chain keeps exactly the events with `tx.timestamp > cutoff_time` (strict);
emptied chain keys are deleted, which the events-per-chain view renders as
`[]` either way. -/
def cleanup_old_data (daily_transactions : String → List WEvent)
    (now : Int) (days_to_keep : Nat) : String → List WEvent :=
  let cutoff_time := now - daysToSeconds days_to_keep
  fun chain => (daily_transactions chain).filter (fun tx => decide (cutoff_time < tx.timestamp))

/-- The processed-set cap of `cleanup_old_data` (lines 295-297):
`if len(s) > 10000: s = set(list(s)[-5000:])`.  `list(s)` enumerates a Python
`set` in its internal (hash-table) iteration order, so the function is stated
over that enumeration; the slice keeps its last 5000 elements.  The slicing
logic never inspects the elements, hence the polymorphic element type. -/
def prune_processed {α : Type} (enum : List α) : List α :=
  if enum.length > 10000 then enum.drop (enum.length - 5000) else enum

end Sunset

namespace Sunset

/-! ## Helper lemmas -/

set_option maxRecDepth 10000 in
/-- The selector computed by the embedded Keccak-256 is the known value
`0x61c8e739`. -/
theorem withdraw_selector_eq : withdraw_selector = [0x61, 0xc8, 0xe7, 0x39] := by decide

theorem chunkRanges_length (f t : Nat) :
    (chunkRanges f t).length = (t + 1 - f + 499) / 500 := by
  simp [chunkRanges, pyRange, max_blocks_per_request]

theorem chunkRanges_get (f t i : Nat) (h : i < (chunkRanges f t).length) :
    (chunkRanges f t).get ⟨i, h⟩ = (f + 500 * i, min (f + 500 * i + 499) t) := by
  simp only [chunkRanges, pyRange, max_blocks_per_request, List.get_eq_getElem,
    List.getElem_map, List.getElem_range, Prod.mk.injEq]
  exact ⟨trivial, by congr 1⟩

theorem chunkRanges_index_le {f t i : Nat} (h : i < (chunkRanges f t).length) :
    f + 500 * i ≤ t := by
  rw [chunkRanges_length] at h
  have h2 : (i + 1) * 500 ≤ t + 1 - f + 499 :=
    (Nat.le_div_iff_mul_le (by norm_num)).mp h
  omega

end Sunset

namespace Sunset

theorem chunkRanges_mem {f t : Nat} {p : Nat × Nat} (hp : p ∈ chunkRanges f t) :
    ∃ i, i < (chunkRanges f t).length ∧
      p = (f + 500 * i, min (f + 500 * i + 499) t) := by
  obtain ⟨⟨i, hi⟩, hg⟩ := List.mem_iff_get.mp hp
  exact ⟨i, hi, by rw [← hg, chunkRanges_get]⟩

/-- C6: the chunk loop splits `[100, 1199]` into exactly the three sub-ranges
`[100,599]`, `[600,1099]`, `[1100,1199]` (so exactly 3 log queries), and in
general it produces consecutive sub-ranges, each no wider than
`max_blocks_per_request` blocks, that together cover `[start, current]`
exactly. -/
theorem c6_chunk_cover :
    chunkRanges 100 1199 = [(100, 599), (600, 1099), (1100, 1199)] ∧
    (∀ f t, ∀ p ∈ chunkRanges f t, f ≤ p.1 ∧ p.1 ≤ p.2 ∧ p.2 ≤ t ∧
      p.2 + 1 - p.1 ≤ max_blocks_per_request) ∧
    (∀ f t i, ∀ h : i + 1 < (chunkRanges f t).length,
      ((chunkRanges f t).get ⟨i + 1, h⟩).1 =
        ((chunkRanges f t).get ⟨i, Nat.lt_of_succ_lt h⟩).2 + 1) ∧
    (∀ f t b, f ≤ t → ((f ≤ b ∧ b ≤ t) ↔
      ∃ p ∈ chunkRanges f t, p.1 ≤ b ∧ b ≤ p.2)) := by
  refine ⟨by decide, ?_, ?_, ?_⟩
  · intro f t p hp
    obtain ⟨i, hi, rfl⟩ := chunkRanges_mem hp
    have hle := chunkRanges_index_le hi
    simp only [max_blocks_per_request]
    omega
  · intro f t i h
    have h1 : f + 500 * (i + 1) ≤ t := chunkRanges_index_le h
    rw [chunkRanges_get, chunkRanges_get]
    simp only
    omega
  · intro f t b hft
    constructor
    · rintro ⟨hfb, hbt⟩
      have hlen : (b - f) / 500 < (chunkRanges f t).length := by
        rw [chunkRanges_length]
        have h1 : (b - f) / 500 * 500 ≤ b - f := Nat.div_mul_le_self _ _
        rw [Nat.lt_iff_add_one_le, Nat.le_div_iff_mul_le (by norm_num : (0:Nat) < 500)]
        omega
      refine ⟨(chunkRanges f t).get ⟨(b - f) / 500, hlen⟩, List.get_mem _ _ _, ?_⟩
      rw [chunkRanges_get]
      have hdm : 500 * ((b - f) / 500) + (b - f) % 500 = b - f := Nat.div_add_mod _ _
      have hmod : (b - f) % 500 < 500 := Nat.mod_lt _ (by norm_num)
      simp only
      omega
    · rintro ⟨p, hp, hpb, hbp⟩
      obtain ⟨i, hi, rfl⟩ := chunkRanges_mem hp
      have hle := chunkRanges_index_le hi
      simp only at hpb hbp
      omega

/-- Witness for C6, instantiating the quantified conjuncts at the spec's
example range: the first sub-range of `[100, 1199]` is in-range and 500 blocks
wide, the second starts right after the first ends, and block 700 is covered. -/
theorem c6_chunk_cover_witness :
    (100 ≤ (100, 599).1 ∧ (100, 599).1 ≤ (100, 599).2 ∧ (100, 599).2 ≤ 1199 ∧
      (100, 599).2 + 1 - (100, 599).1 ≤ max_blocks_per_request) ∧
    (∃ p ∈ chunkRanges 100 1199, p.1 ≤ 700 ∧ 700 ≤ p.2) := by
  constructor
  · exact c6_chunk_cover.2.1 100 1199 (100, 599) (by decide)
  · exact (c6_chunk_cover.2.2.2 100 1199 700 (by decide)).mp (by decide)

/-- C7: `_is_withdraw_function` returns false for every input shorter than 4
bytes, and returns true exactly when the input's leading 4 bytes equal the
4-byte selector derived from the canonical signature
`withdraw(uint256,address,uint256,uint8,bytes32,bytes32)` — the first 4 bytes
of its Keccak-256 hash, computed here as in the source. -/
theorem c7_function_matcher :
    (∀ input_data : List Nat, input_data.length < 4 →
      is_withdraw_function input_data = false) ∧
    (∀ input_data : List Nat, is_withdraw_function input_data = true ↔
      4 ≤ input_data.length ∧ input_data.take 4 = withdraw_selector) ∧
    withdraw_selector =
      (keccak256 (withdrawSignature.data.map Char.toNat)).take 4 := by
  refine ⟨?_, ?_, rfl⟩
  · intro l h
    simp [is_withdraw_function, h]
  · intro l
    by_cases h : l.length < 4
    · simp only [is_withdraw_function, if_pos h]
      constructor
      · intro hfalse
        exact absurd hfalse (by simp)
      · intro ⟨h4, _⟩
        omega
    · simp only [is_withdraw_function, if_neg h, beq_iff_eq]
      exact ⟨fun he => ⟨by omega, he⟩, fun he => he.2⟩

/-- Witness for C7: an input equal to the selector followed by two bytes
matches, and a 2-byte input does not. -/
theorem c7_function_matcher_witness :
    is_withdraw_function [0x61, 0xc8, 0xe7, 0x39, 0, 0] = true ∧
    is_withdraw_function [0x61, 0xc8] = false := by
  constructor
  · exact (c7_function_matcher.2.1 _).mpr
      ⟨by decide, by rw [withdraw_selector_eq]; rfl⟩
  · exact c7_function_matcher.1 _ (by decide)

end Sunset

namespace Sunset

theorem getLogsScan_prefix (rpc : ChainRpc) :
    ∀ cs : List (Nat × Nat), (getLogsScan rpc cs).1 <+: cs := by
  intro cs
  induction cs with
  | nil => exact List.nil_prefix
  | cons c rest ih =>
    cases h : rpc.get_logs c.1 c.2 with
    | error e =>
      simp only [getLogsScan, h]
      exact List.cons_prefix_cons.mpr ⟨rfl, List.nil_prefix⟩
    | ok logs =>
      simp only [getLogsScan, h]
      exact List.cons_prefix_cons.mpr ⟨rfl, ih⟩

theorem chunkRanges_nodup (f t : Nat) : (chunkRanges f t).Nodup := by
  unfold chunkRanges pyRange
  apply List.Nodup.map
  · intro a b hab
    exact congrArg Prod.fst hab
  · apply List.Nodup.map
    · intro a b hab
      simp only [max_blocks_per_request] at hab
      omega
    · exact List.nodup_range _

/-- C4: a failing sub-range log request is not retried at the scanning layer —
the queries a pass issues form an initial segment of the chunk list, so each
sub-range is queried at most once — the exception propagates out of the chunk
loop to the enclosing handler, and the partial logs collected from earlier
sub-ranges are discarded: the pass yields no candidate transactions for that
chain. -/
theorem c4_subrange_failure :
    (∀ rpc f t, (getLogsScan rpc (chunkRanges f t)).1 <+: chunkRanges f t ∧
      (getLogsScan rpc (chunkRanges f t)).1.Nodup) ∧
    (∀ rpc last_processed initial_block_range start_blockArg current_block e,
      rpc.block_number = Except.ok current_block →
      (getLogsScan rpc (chunkRanges (start_block_of start_blockArg last_processed
        initial_block_range current_block) current_block)).2 = Except.error e →
      (get_recent_transactions rpc last_processed initial_block_range
        start_blockArg).2 = []) := by
  constructor
  · intro rpc f t
    have hp := getLogsScan_prefix rpc (chunkRanges f t)
    exact ⟨hp, (chunkRanges_nodup f t).sublist hp.sublist⟩
  · intro rpc lp ir sb cur e h1 h2
    simp [get_recent_transactions, h1, h2]

/-- RPC handle whose height query succeeds but every `get_logs` sub-range
query fails (a transient rate-limit error), used to exercise the failure
paths of a scan pass. -/
def rpcLogsFail : ChainRpc where
  block_number := Except.ok 200
  get_logs := fun _ _ => Except.error "rate limited"
  get_transaction := fun _ => Except.error "unavailable"

/-- RPC handle whose height query itself fails. -/
def rpcDown : ChainRpc where
  block_number := Except.error "connection refused"
  get_logs := fun _ _ => Except.error "connection refused"
  get_transaction := fun _ => Except.error "connection refused"

/-- Witness for C4: with cursor at 100 and current height 200, the single
sub-range query `[101, 200]` fails, is issued exactly once, and the pass
returns no candidates. -/
theorem c4_subrange_failure_witness :
    ((getLogsScan rpcLogsFail (chunkRanges 101 200)).1 <+: chunkRanges 101 200 ∧
      (getLogsScan rpcLogsFail (chunkRanges 101 200)).1.Nodup) ∧
    (get_recent_transactions rpcLogsFail (some 100) 10 none).2 = [] :=
  ⟨c4_subrange_failure.1 rpcLogsFail 101 200,
   c4_subrange_failure.2 rpcLogsFail (some 100) 10 none 200 "rate limited" rfl rfl⟩

/-- C1 counterexample: a run in which the sub-range log query of the pass
fails with a transient error, yet the chain's cursor IS advanced (from 100 to
the current height 200), contradicting the claim that the cursor is not
advanced when a sub-range query fails: the same range is NOT retried on the
next cycle. -/
theorem c1_counterexample :
    (getLogsScan rpcLogsFail (chunkRanges 101 200)).2 = Except.error "rate limited" ∧
    (get_recent_transactions rpcLogsFail (some 100) 10 none).1 = some 200 ∧
    ¬ (get_recent_transactions rpcLogsFail (some 100) 10 none).1 = some 100 :=
  ⟨rfl, rfl, by decide⟩

/-- C1 (amended): the cursor is set to the fetched current height at the
start of the pass, before any log query, so it advances even when a sub-range
query or per-transaction resolution later fails (such a pass merely yields no
transactions); the cursor is left unchanged — and the pass returns empty —
only when fetching the current height itself fails. -/
theorem c1_cursor_behavior :
    ∀ rpc last_processed initial_block_range start_blockArg,
      (∀ current_block, rpc.block_number = Except.ok current_block →
        (get_recent_transactions rpc last_processed initial_block_range
          start_blockArg).1 = some current_block) ∧
      (∀ e, rpc.block_number = Except.error e →
        get_recent_transactions rpc last_processed initial_block_range
          start_blockArg = (last_processed, [])) := by
  intro rpc lp ir sb
  constructor
  · intro cur h
    cases hs : (getLogsScan rpc (chunkRanges (start_block_of sb lp ir cur) cur)).2 with
    | error e => simp [get_recent_transactions, h, hs]
    | ok logs => simp [get_recent_transactions, h, hs]
  · intro e h
    simp [get_recent_transactions, h]

/-- Witness for C1 (amended): cursor advances to 200 despite the failed log
query; with an unreachable endpoint the cursor stays at 100 and the pass is
empty. -/
theorem c1_cursor_behavior_witness :
    (get_recent_transactions rpcLogsFail (some 100) 10 none).1 = some 200 ∧
    get_recent_transactions rpcDown (some 100) 10 none = (some 100, []) :=
  ⟨(c1_cursor_behavior rpcLogsFail (some 100) 10 none).1 200 rfl,
   (c1_cursor_behavior rpcDown (some 100) 10 none).2 "connection refused" rfl⟩

end Sunset

namespace Sunset

theorem length_filter_partition {α : Type} (l : List α) (p : α → Bool) :
    (l.filter p).length + (l.filter (fun a => !p a)).length = l.length := by
  induction l with
  | nil => rfl
  | cons a l ih =>
    cases h : p a <;> simp [List.filter_cons, h, ← ih] <;> omega

/-- C8: every per-chain record returned by `get_daily_statistics_for_period`
satisfies successCount + failCount = totalCount, and every event it lists has
`start_time ≤ timestamp ≤ end_time` (both inclusive) and sits in the list
matching its status. -/
theorem c8_window_statistics :
    ∀ chains daily_transactions start_time end_time,
      ∀ pr ∈ get_daily_statistics_for_period chains daily_transactions
        start_time end_time,
        pr.2.successful_withdrawals + pr.2.failed_withdrawals =
          pr.2.total_withdrawals ∧
        (∀ tx ∈ pr.2.successful_transactions,
          start_time ≤ tx.timestamp ∧ tx.timestamp ≤ end_time ∧ tx.status = true) ∧
        (∀ tx ∈ pr.2.failed_transactions,
          start_time ≤ tx.timestamp ∧ tx.timestamp ≤ end_time ∧ tx.status = false) := by
  intro chains daily s e pr hpr
  obtain ⟨chain, _, rfl⟩ := List.mem_map.mp hpr
  refine ⟨length_filter_partition _ _, ?_, ?_⟩
  · intro tx htx
    simp only [statsForChain, List.mem_filter, Bool.and_eq_true, decide_eq_true_eq] at htx
    exact ⟨htx.1.2.1, htx.1.2.2, htx.2⟩
  · intro tx htx
    simp only [statsForChain, List.mem_filter, Bool.and_eq_true, decide_eq_true_eq,
      Bool.not_eq_true'] at htx
    exact ⟨htx.1.2.1, htx.1.2.2, htx.2⟩

/-- Two sample events used to instantiate the statistics and retention
claims. -/
def evInWindow : WEvent :=
  { hash := "0xaaa", block_number := 120, status := true, chain := "base",
    timestamp := 5000, gas_used := 21000 }

def evFailed : WEvent :=
  { hash := "0xbbb", block_number := 130, status := false, chain := "base",
    timestamp := 6000, gas_used := 21000 }

def evOutside : WEvent :=
  { hash := "0xccc", block_number := 140, status := true, chain := "base",
    timestamp := 99999, gas_used := 21000 }

def sampleDaily : String → List WEvent :=
  fun c => if c = "base" then [evInWindow, evFailed, evOutside] else []

/-- Witness for C8 on a concrete ledger: one success and one failure inside
the window `[4000, 9000]`, one event outside it; the counts add up and the
listed failed event is in-window with status false. -/
theorem c8_window_statistics_witness :
    (statsForChain (sampleDaily "base") 4000 9000).successful_withdrawals +
        (statsForChain (sampleDaily "base") 4000 9000).failed_withdrawals =
      (statsForChain (sampleDaily "base") 4000 9000).total_withdrawals ∧
    (4000 ≤ evFailed.timestamp ∧ evFailed.timestamp ≤ 9000 ∧
      evFailed.status = false) := by
  have h := c8_window_statistics ["base"] sampleDaily 4000 9000
    ("base", statsForChain (sampleDaily "base") 4000 9000)
    (by simp [get_daily_statistics_for_period])
  exact ⟨h.1, h.2.2 evFailed (by decide)⟩

end Sunset

namespace Sunset

/-- An event dated exactly at the 7-day retention cutoff for `now = 1000000`:
`1000000 - 7 * 86400 = 395200`. -/
def evBoundary : WEvent :=
  { hash := "0xddd", block_number := 150, status := true, chain := "base",
    timestamp := 395200, gas_used := 21000 }

def boundaryDaily : String → List WEvent :=
  fun c => if c = "base" then [evBoundary] else []

/-- C9 counterexample: an event whose timestamp equals the cutoff exactly is
REMOVED by the 7-day pruning (the code keeps only `timestamp > cutoff`,
strictly), contradicting the claim that such an event is retained. -/
theorem c9_counterexample :
    evBoundary.timestamp = 1000000 - daysToSeconds 7 ∧
    cleanup_old_data boundaryDaily 1000000 7 "base" = [] := by
  constructor
  · decide
  · simp [cleanup_old_data, boundaryDaily, daysToSeconds, evBoundary]

/-- C9 (amended): pruning with a `days_to_keep` horizon retains exactly the
events with `timestamp > now - horizon` (strict) and removes exactly those
with `timestamp ≤ now - horizon` — so an event whose timestamp equals the
cutoff is removed, not retained. -/
theorem c9_retention_pruning :
    ∀ daily_transactions now days_to_keep chain (tx : WEvent),
      tx ∈ cleanup_old_data daily_transactions now days_to_keep chain ↔
        tx ∈ daily_transactions chain ∧
          now - daysToSeconds days_to_keep < tx.timestamp := by
  intro daily now k chain tx
  simp [cleanup_old_data, List.mem_filter]

/-- Witness for C9 (amended), evaluated at the boundary ledger: the
retention characterization shows the cutoff-dated event is pruned. -/
theorem c9_retention_pruning_witness :
    ¬ (evBoundary ∈ cleanup_old_data boundaryDaily 1000000 7 "base") :=
  fun hmem => by
    have h := (c9_retention_pruning boundaryDaily 1000000 7 "base" evBoundary).mp hmem
    exact absurd h.2 (by decide)

end Sunset

namespace Sunset

/-- C10: parameter decoding is total (the single `except` catches every
failure: odd or non-hex input, missing bytes, bad padding) and all-or-nothing:
for every input string it returns either the empty record or a record with
exactly the six keys `id`, `trader`, `amount`, `v`, `r`, `s` in that order —
never a partially populated record. -/
theorem c10_decode_all_or_nothing :
    ∀ input_data : String,
      decode_withdraw_params input_data = [] ∨
      (decode_withdraw_params input_data).map Prod.fst =
        ["id", "trader", "amount", "v", "r", "s"] := by
  intro input_data
  unfold decode_withdraw_params
  cases hb : bytes_fromhex (if input_data.startsWith "0x" then input_data.drop 2
      else input_data) with
  | none => left; simp only [hb]
  | some input_bytes =>
    cases hd : abiDecodeWithdraw (input_bytes.drop 4) with
    | none => left; simp only [hb, hd]
    | some params =>
      right
      obtain ⟨id, trader, amount, v, r, sv⟩ := params
      simp only [hb, hd, List.map_cons, List.map_nil]

end Sunset

namespace Sunset

/-! ## Dedup / alert invariants for `monitor_withdrawals` -/

/-- Occurrences of hash `h` in the chain's event ledger. -/
def ledgerCount (st : MonState) (chain h : String) : Nat :=
  (st.chainEvents chain).countP (fun e => e.hash == h)

/-- Occurrences of hash `h` in the failure-alert dispatch trace. -/
def alertCount (st : MonState) (h : String) : Nat :=
  st.alerts.count h

/-- The dedup invariant: every hash occurs at most once per chain ledger, and
a hash recorded in some ledger is in the processed set. -/
def LedgerOnce (st : MonState) : Prop :=
  ∀ chain h, ledgerCount st chain h ≤ 1 ∧
    (1 ≤ ledgerCount st chain h → h ∈ st.processed_transactions)

/-- What one processing step (and hence any sequence of steps) preserves:
the processed set only grows, hashes already processed gain no ledger entries
and no alerts, and the dedup invariant is maintained. -/
def PassStep (st st' : MonState) : Prop :=
  (∃ l, st'.processed_transactions = st.processed_transactions ++ l) ∧
  (∀ h, h ∈ st.processed_transactions →
    (∀ chain, ledgerCount st' chain h = ledgerCount st chain h) ∧
    alertCount st' h = alertCount st h) ∧
  (LedgerOnce st → LedgerOnce st')

theorem passStep_refl (st : MonState) : PassStep st st :=
  ⟨⟨[], by simp⟩, fun _ _ => ⟨fun _ => rfl, rfl⟩, id⟩

theorem passStep_trans {a b c : MonState} (h1 : PassStep a b) (h2 : PassStep b c) :
    PassStep a c := by
  obtain ⟨⟨l1, hl1⟩, hcnt1, hinv1⟩ := h1
  obtain ⟨⟨l2, hl2⟩, hcnt2, hinv2⟩ := h2
  refine ⟨⟨l1 ++ l2, by rw [hl2, hl1, List.append_assoc]⟩, ?_, fun hi => hinv2 (hinv1 hi)⟩
  intro h hm
  have hmb : h ∈ b.processed_transactions := by
    rw [hl1]; exact List.mem_append_left _ hm
  exact ⟨fun chain => ((hcnt2 h hmb).1 chain).trans ((hcnt1 h hm).1 chain),
    ((hcnt2 h hmb).2).trans ((hcnt1 h hm).2)⟩

/-- A reflexive-transitive state relation established by every step of a fold
holds from the initial to the final state. -/
theorem foldl_pres {α : Type} (R : MonState → MonState → Prop)
    (hrefl : ∀ s, R s s)
    (htrans : ∀ {a b c}, R a b → R b c → R a c)
    (f : MonState → α → MonState) (hf : ∀ s x, R s (f s x)) :
    ∀ (xs : List α) (s : MonState), R s (xs.foldl f s) := by
  intro xs
  induction xs with
  | nil => intro s; exact hrefl s
  | cons x xs ih => intro s; exact htrans (hf s x) (ih (f s x))

theorem countP_appendDaily (d : String → List WEvent) (chain : String)
    (tx : WEvent) (chain' h : String) :
    ((appendDaily d chain tx) chain').countP (fun e => e.hash == h) =
      (d chain').countP (fun e => e.hash == h) +
        (if chain' = chain ∧ tx.hash = h then 1 else 0) := by
  simp only [appendDaily]
  by_cases hc : chain' = chain
  · by_cases hh : tx.hash = h <;>
      simp [hc, hh, List.countP_append, List.countP_cons]
  · simp [hc]

theorem processTx_passStep (receiptOf : String → Option Receipt) (chain : String)
    (st : MonState) (t : TxCand) : PassStep st (processTx receiptOf chain st t) := by
  by_cases hmem : t.hash ∈ st.processed_transactions
  · rw [processTx, if_pos hmem]; exact passStep_refl st
  · rw [processTx, if_neg hmem]
    cases hr : receiptOf t.hash with
    | none => exact passStep_refl st
    | some receipt =>
      simp only
      refine ⟨⟨[t.hash], rfl⟩, ?_, ?_⟩
      · intro h hm
        have hne : t.hash ≠ h := fun he => hmem (he ▸ hm)
        refine ⟨fun chain' => ?_, ?_⟩
        · simp only [ledgerCount, MonState.chainEvents, countP_appendDaily]
          simp [hne]
        · simp only [alertCount]
          cases hst : (receipt.status == 1) <;>
            simp [hst, List.count_append, List.count_singleton, hne]
      · intro hinv chain' h'
        have hold := hinv chain' h'
        simp only [ledgerCount, MonState.chainEvents, countP_appendDaily] at hold ⊢
        by_cases hh : h' = t.hash
        · have hzero : (st.daily_transactions chain').countP (fun e => e.hash == h') = 0 := by
            rcases Nat.eq_zero_or_pos
              ((st.daily_transactions chain').countP (fun e => e.hash == h')) with hz | hp
            · exact hz
            · exact absurd (hh ▸ hold.2 hp) hmem
          refine ⟨?_, fun _ => by simp [hh]⟩
          rw [hzero]
          by_cases hc : chain' = chain <;> simp [hc, hh]
        · have hif : ¬ (chain' = chain ∧ t.hash = h') := fun hc => hh hc.2.symm
          rw [if_neg hif]
          exact ⟨by simpa using hold.1, fun hge => List.mem_append_left _ (hold.2 hge)⟩

end Sunset

namespace Sunset

/-- C2: hashes already in the processed set — whether added earlier in the
same process or reloaded from the persisted file at startup — gain no new
ledger entry and no new alert during any later pass over any candidate lists
(overlapping ranges re-surfacing the same hash included); and the
at-most-once ledger invariant `LedgerOnce` is preserved by every pass, so a
hash added to the processed set is appended at most once to its chain's
ledger across repeated passes. -/
theorem c2_dedup_idempotent :
    ∀ chains recentOf receiptOf st,
      (∀ h, h ∈ st.processed_transactions →
        (∀ chain, ledgerCount (monitor_withdrawals chains recentOf receiptOf st)
            chain h = ledgerCount st chain h) ∧
        alertCount (monitor_withdrawals chains recentOf receiptOf st) h =
          alertCount st h) ∧
      (LedgerOnce st →
        LedgerOnce (monitor_withdrawals chains recentOf receiptOf st)) := by
  intro chains recentOf receiptOf st
  have hstep : PassStep st (monitor_withdrawals chains recentOf receiptOf st) := by
    apply foldl_pres PassStep passStep_refl (fun h1 h2 => passStep_trans h1 h2)
    intro s chain
    exact foldl_pres PassStep passStep_refl (fun h1 h2 => passStep_trans h1 h2)
      (processTx (receiptOf chain) chain) (fun s' t => processTx_passStep _ _ _ _)
      (recentOf chain) s
  exact ⟨hstep.2.1, hstep.2.2⟩

/-- Initial state of a restarted process that reloaded a persisted processed
set containing hash `0xaaa` but has an empty in-memory ledger. -/
def stRestart : MonState :=
  { processed_transactions := ["0xaaa"],
    daily_transactions := fun _ => [],
    all_transactions := [],
    alerts := [] }

/-- A scan pass that re-surfaces the already-processed hash `0xaaa` (with a
failed receipt, which would alert if it were treated as new). -/
def recentBase : String → List TxCand :=
  fun c => if c = "base" then
    [{ hash := "0xaaa", block_number := 120, input := [], timestamp := 5000 }]
  else []

def receiptsBase : String → String → Option Receipt :=
  fun _ h => if h = "0xaaa" then
    some { status := 0, block_number := 120, gas_used := 21000 }
  else none

/-- Witness for C2: after a restart with `0xaaa` persisted as processed,
re-scanning a range containing `0xaaa` appends nothing to the ledger and
dispatches nothing. -/
theorem c2_dedup_idempotent_witness :
    ledgerCount (monitor_withdrawals ["base"] recentBase receiptsBase stRestart)
        "base" "0xaaa" = ledgerCount stRestart "base" "0xaaa" ∧
    alertCount (monitor_withdrawals ["base"] recentBase receiptsBase stRestart)
        "0xaaa" = alertCount stRestart "0xaaa" := by
  have h := (c2_dedup_idempotent ["base"] recentBase receiptsBase stRestart).1
    "0xaaa" (by decide)
  exact ⟨h.1 "base", h.2⟩

/-- Alert-count potential: an upper bound on how many alerts for `h` can
still be emitted — once `h` is processed, none. -/
def alertPotential (st : MonState) (h : String) : Nat :=
  alertCount st h + (if h ∈ st.processed_transactions then 0 else 1)

theorem processTx_alertPotential (receiptOf : String → Option Receipt)
    (chain : String) (st : MonState) (t : TxCand) (h : String) :
    alertPotential (processTx receiptOf chain st t) h ≤ alertPotential st h := by
  by_cases hmem : t.hash ∈ st.processed_transactions
  · rw [processTx, if_pos hmem]
  · rw [processTx, if_neg hmem]
    cases hr : receiptOf t.hash with
    | none => exact Nat.le_refl _
    | some receipt =>
      simp only [alertPotential, alertCount]
      by_cases hh : h = t.hash
      · subst hh
        rw [if_neg hmem]
        have hmem2 : t.hash ∈ st.processed_transactions ++ [t.hash] := by simp
        rw [if_pos hmem2]
        cases hst : (receipt.status == 1) <;>
          simp [hst, List.count_append, List.count_singleton]
      · have hne : t.hash ≠ h := fun he => hh he.symm
        by_cases hmemh : h ∈ st.processed_transactions
        · have hmema : h ∈ st.processed_transactions ++ [t.hash] :=
            List.mem_append_left _ hmemh
          rw [if_pos hmemh, if_pos hmema]
          cases hst : (receipt.status == 1) <;>
            simp [hst, List.count_append, List.count_singleton, hne]
        · have hmema : ¬ h ∈ st.processed_transactions ++ [t.hash] := by
            simp [List.mem_append, hmemh, hh]
          rw [if_neg hmemh, if_neg hmema]
          cases hst : (receipt.status == 1) <;>
            simp [hst, List.count_append, List.count_singleton, hne]

/-- C5: for a newly resolved candidate (hash not yet processed, receipt
available) the failure alert is dispatched exactly once when the resolved
status is false (`receipt.status ≠ 1`) and never when it is true; a candidate
whose hash is already processed changes nothing at all; and across a whole
pass no hash is ever dispatched more than once on top of its prior count. -/
theorem c5_failure_alert :
    ∀ receiptOf chain st tx_data rcpt,
      (tx_data.hash ∉ st.processed_transactions →
        receiptOf tx_data.hash = some rcpt →
        (processTx receiptOf chain st tx_data).alerts =
          (if rcpt.status == 1 then st.alerts
           else st.alerts ++ [tx_data.hash])) ∧
      (tx_data.hash ∈ st.processed_transactions →
        processTx receiptOf chain st tx_data = st) ∧
      (∀ chains recentOf receiptOf2 h,
        alertCount (monitor_withdrawals chains recentOf receiptOf2 st) h ≤
          alertCount st h + 1) := by
  intro receiptOf chain st t rcpt
  refine ⟨?_, ?_, ?_⟩
  · intro hmem hr
    rw [processTx, if_neg hmem, hr]
  · intro hmem
    rw [processTx, if_pos hmem]
  · intro chains recentOf receiptOf2 h
    have hpot : alertPotential (monitor_withdrawals chains recentOf receiptOf2 st) h ≤
        alertPotential st h := by
      apply foldl_pres (fun a b => alertPotential b h ≤ alertPotential a h)
        (fun s => Nat.le_refl _) (fun h1 h2 => Nat.le_trans h2 h1)
      intro s chain2
      apply foldl_pres (fun a b => alertPotential b h ≤ alertPotential a h)
        (fun s => Nat.le_refl _) (fun h1 h2 => Nat.le_trans h2 h1)
      intro s' t'
      exact processTx_alertPotential _ _ _ _ _
    have h1 : alertCount (monitor_withdrawals chains recentOf receiptOf2 st) h ≤
        alertPotential (monitor_withdrawals chains recentOf receiptOf2 st) h :=
      Nat.le_add_right _ _
    have h2 : alertPotential st h ≤ alertCount st h + 1 := by
      unfold alertPotential
      split <;> omega
    omega

/-- Fresh-start state: nothing processed, empty ledger. -/
def stFresh : MonState :=
  { processed_transactions := [],
    daily_transactions := fun _ => [],
    all_transactions := [],
    alerts := [] }

/-- Witness for C5: a newly resolved failed withdrawal (`status = 0`)
dispatches exactly one alert for its hash; the same candidate against the
restart state (hash already processed) changes nothing; and the pass-level
bound holds at the fresh state. -/
theorem c5_failure_alert_witness :
    (processTx (receiptsBase "base") "base" stFresh
        { hash := "0xaaa", block_number := 120, input := [], timestamp := 5000 }).alerts =
      [] ++ ["0xaaa"] ∧
    processTx (receiptsBase "base") "base" stRestart
        { hash := "0xaaa", block_number := 120, input := [], timestamp := 5000 } =
      stRestart ∧
    alertCount (monitor_withdrawals ["base"] recentBase receiptsBase stFresh)
        "0xaaa" ≤ alertCount stFresh "0xaaa" + 1 := by
  refine ⟨?_, ?_, ?_⟩
  · have h := (c5_failure_alert (receiptsBase "base") "base" stFresh
      { hash := "0xaaa", block_number := 120, input := [], timestamp := 5000 }
      { status := 0, block_number := 120, gas_used := 21000 }).1
      (by decide) (by decide)
    rw [h]; rfl
  · exact (c5_failure_alert (receiptsBase "base") "base" stRestart
      { hash := "0xaaa", block_number := 120, input := [], timestamp := 5000 }
      { status := 0, block_number := 120, gas_used := 21000 }).2.1 (by decide)
  · exact (c5_failure_alert (receiptsBase "base") "base" stFresh
      { hash := "0xaaa", block_number := 120, input := [], timestamp := 5000 }
      { status := 0, block_number := 120, gas_used := 21000 }).2.2
      ["base"] recentBase receiptsBase "0xaaa"

end Sunset

namespace Sunset

theorem mem_drop_range_le {n m x : Nat} (hx : x ∈ (List.range n).drop m) :
    m ≤ x := by
  obtain ⟨i, hi, hg⟩ := List.mem_iff_getElem.mp hx
  rw [List.getElem_drop, List.getElem_range] at hg
  omega

theorem prune_reverse_range :
    prune_processed (List.range 10001).reverse = (List.range 5000).reverse := by
  rw [prune_processed, if_pos (by simp)]
  rw [List.length_reverse, List.length_range]
  rw [List.drop_reverse, List.length_range]
  norm_num
  rw [List.take_range]
  norm_num

/-- C3 divergence: the code keeps `list(s)[-5000:]`, the last 5000 elements
of the Python set's internal iteration order, which is unrelated to insertion
order (string hashes are even randomized per process).  For an insertion
order of 10001 hashes presented by the set in reverse, the pruning differs
from "drop the oldest half": it RETAINS the very first (oldest) inserted hash
and EVICTS the most recently inserted one — the opposite of the claim and of
the code's own "keep only the most recent 5000" comment. -/
theorem c3_eviction_divergence :
    ∃ ins enum : List Nat, enum.Perm ins ∧ 10000 < enum.length ∧
      prune_processed enum ≠ ins.drop (ins.length - 5000) ∧
      (∃ oldest, ins.head? = some oldest ∧ oldest ∈ prune_processed enum) ∧
      (∃ newest, ins.getLast? = some newest ∧
        ¬ newest ∈ prune_processed enum) := by
  refine ⟨List.range 10001, (List.range 10001).reverse,
    List.reverse_perm _, by simp, ?_, ⟨0, ?_, ?_⟩, ⟨10000, ?_, ?_⟩⟩
  · intro heq
    have h0 : (0 : Nat) ∈ prune_processed (List.range 10001).reverse := by
      rw [prune_reverse_range]
      simp
    rw [heq] at h0
    have := mem_drop_range_le h0
    simp [List.length_range] at this
  · rw [show (10001 : Nat) = 10000 + 1 from rfl, List.range_succ_eq_map]
    rfl
  · rw [prune_reverse_range]
    simp
  · rw [show (10001 : Nat) = 10000 + 1 from rfl, List.range_succ]
    exact List.getLast?_concat _
  · rw [prune_reverse_range]
    simp

end Sunset
